import Mathlib

/-!
# Verification of the phantom-text coordinate transform (`src/views/editor/phantom_text.rs`)

This file is a shallow embedding of the live code of `phantom_text.rs`:
the `PhantomText` span model, the per-line annotator `PhantomTextLine::new`,
the multi-line merger `PhantomTextMultiLine::new/merge`, and the coordinate
queries (`text_of_final_offset`, `origin_col_of_final_offset`, `col_at`,
`final_col_of_col`, `cursor_position_of_final_col`,
`phantom_text_of_final_col`, `final_line_content`).

Modelling conventions:
* `usize` is modelled as `Nat`; `i32` offsets as `Int`.  The source's
  `usize_offset(val, offset)` asserts `val + offset >= 0` and then casts;
  we model the value as `(val + offset).toNat` and track the assertion
  separately (`buildPanics`).  Plain `usize` subtraction is modelled as
  truncated `Nat` subtraction (the source would panic on underflow in a
  debug build; the places where this matters are flagged per claim).
* Rust `String`/`&str` are modelled as Lean `String`; the texts of interest
  are ASCII, so Rust's byte length coincides with `String.length`, and the
  unchecked byte slicing of `sub_str` is modelled as (total) char slicing.
* `PhantomText`'s styling fields (`font_size`, `fg`, `bg`, `under_line`)
  and `affinity` are omitted: no function modelled here reads them
  (`final_col_of_col` ignores its `_before_cursor` argument in the source).
* The source's `panic!()` arms (`Text::Empty` inside
  `final_col_of_col`/`cursor_position_of_final_col`) are modelled by junk
  values; a dedicated theorem shows they are unreachable for
  constructor-built values.
-/

namespace Floem

/-- `lapce_xi_rope::Interval`: a half-open interval of `usize`.  The Rust
field `end` is a Lean keyword, so it is called `stop` here. -/
structure Interval where
  start : Nat
  stop : Nat
  deriving DecidableEq, Repr

namespace Interval

/-- `Interval::new`. -/
def new (start stop : Nat) : Interval := ⟨start, stop⟩

/-- `Interval::contains`: `self.start <= val && val < self.end`. -/
def contains (i : Interval) (val : Nat) : Bool :=
  decide (i.start ≤ val) && decide (val < i.stop)

/-- `Interval::translate`: shift both endpoints forward by `amount`. -/
def translate (i : Interval) (amount : Nat) : Interval :=
  ⟨i.start + amount, i.stop + amount⟩

end Interval

/-- `PhantomTextKind` with its source declaration order (which drives the
derived `Ord` used for the sort tie-break). -/
inductive PhantomTextKind where
  | Ime
  | Placeholder
  | Completion
  | InlayHint
  | Diagnostic
  | LineFoldedRang (next_line : Option Nat) (len : Nat)
  deriving DecidableEq, Repr

namespace PhantomTextKind

/-- Variant index in declaration order (the derived `Ord` compares this
first, exactly as Rust's `#[derive(Ord)]` does). -/
def rank : PhantomTextKind → Nat
  | .Ime => 0
  | .Placeholder => 1
  | .Completion => 2
  | .InlayHint => 3
  | .Diagnostic => 4
  | .LineFoldedRang _ _ => 5

/-- Rust's derived `Ord` on `Option<usize>`: `None < Some(_)`. -/
def optCmp : Option Nat → Option Nat → Ordering
  | none, none => .eq
  | none, some _ => .lt
  | some _, none => .gt
  | some a, some b => compare a b

/-- Rust's derived `Ord` on `PhantomTextKind`: variant order first, then the
fields of `LineFoldedRang` lexicographically. -/
def cmp (a b : PhantomTextKind) : Ordering :=
  match a, b with
  | .LineFoldedRang n1 l1, .LineFoldedRang n2 l2 =>
      match optCmp n1 n2 with
      | .eq => compare l1 l2
      | o => o
  | _, _ => compare a.rank b.rank

end PhantomTextKind

/-- `PhantomText` (styling fields omitted, see the header comment). -/
structure PhantomText where
  kind : PhantomTextKind
  line : Nat
  col : Nat
  merge_col : Nat
  final_col : Nat
  text : String
  deriving DecidableEq, Repr

namespace PhantomText

/-- `PhantomText::next_line`. -/
def next_line (p : PhantomText) : Option Nat :=
  match p.kind with
  | .LineFoldedRang nl _ => nl
  | _ => none

/-- The `len` of a `LineFoldedRang` kind, `0` for the other kinds (the
pattern `PhantomTextKind::LineFoldedRang {len, ..}` of the source). -/
def foldedLen (p : PhantomText) : Nat :=
  match p.kind with
  | .LineFoldedRang _ len => len
  | _ => 0

/-- `PhantomText::final_col_range`: `None` for empty text, otherwise the
closed range `[final_col, final_col + text.len() - 1]`. -/
def final_col_range (p : PhantomText) : Option (Nat × Nat) :=
  if p.text = "" then none
  else some (p.final_col, p.final_col + p.text.length - 1)

/-- `PhantomText::next_final_col`. -/
def next_final_col (p : PhantomText) : Nat :=
  match p.final_col_range with
  | some (_, e) => e + 1
  | none => p.final_col

/-- `PhantomText::next_origin_col`. -/
def next_origin_col (p : PhantomText) : Nat :=
  p.col + p.foldedLen

/-- `PhantomText::next_merge_col`. -/
def next_merge_col (p : PhantomText) : Nat :=
  p.merge_col + p.foldedLen

theorem next_final_col_eq (p : PhantomText) :
    p.next_final_col = p.final_col + p.text.length := by
  unfold next_final_col final_col_range
  by_cases h : p.text = ""
  · simp [h]
  · have : p.text.length ≠ 0 := by
      intro h0
      exact h (String.ext (List.length_eq_zero.mp h0))
    simp [h]
    omega

end PhantomText

/-- The `Text` segment sum type. -/
inductive Text where
  | Phantom (text : PhantomText)
  | OriginText (line : Nat) (col : Interval) (merge_col : Interval)
      (final_col : Interval)
  | Empty
  deriving DecidableEq, Repr

namespace Text

/-- `Text::merge_to`: re-base merge/final coordinates by the cumulative
lengths of the lines already merged (origin coordinates are untouched). -/
def merge_to (origin_text_len final_text_len : Nat) : Text → Text
  | .Phantom p =>
      .Phantom { p with
        merge_col := p.merge_col + origin_text_len,
        final_col := p.final_col + final_text_len }
  | .OriginText line col merge_col final_col =>
      .OriginText line col (merge_col.translate origin_text_len)
        (final_col.translate final_text_len)
  | .Empty => .Empty

end Text

/-- The sort of `PhantomTextLine::new`: by `merge_col`, ties by the derived
`Ord` of the kind. -/
def phCmp (a b : PhantomText) : Ordering :=
  if a.merge_col = b.merge_col then PhantomTextKind.cmp a.kind b.kind
  else compare a.merge_col b.merge_col

/-- Stable sort of the spans, mirroring Rust's stable `sort_by`. -/
def sortSpans (l : List PhantomText) : List PhantomText :=
  List.insertionSort (fun a b => phCmp a b ≠ Ordering.gt) l

/-- `usize_offset(val, offset)` ignoring the assertion (modelled by
`buildPanics`): `(val as i32 + offset) as usize`, truncated at zero. -/
def usize_offset (val : Nat) (offset : Int) : Nat :=
  ((val : Int) + offset).toNat

/-- The running state of the loop inside `PhantomTextLine::new`. -/
structure BState where
  final_last_end : Nat
  origin_last_end : Nat
  merge_last_end : Nat
  texts : List Text
  offset : Int
  deriving Repr

/-- One iteration of the loop of `PhantomTextLine::new`: compute the
phantom's `final_col`, advance the offset delta, emit the gap `OriginText`
segment if any, then emit the phantom itself. -/
def buildStep (st : BState) (phantom : PhantomText) : BState :=
  let final_col := usize_offset phantom.merge_col st.offset
  let p := { phantom with final_col := final_col }
  let offset := st.offset + (p.text.length : Int) - (p.foldedLen : Int)
  let texts :=
    if st.final_last_end < final_col then
      let len := final_col - st.final_last_end
      st.texts ++ [Text.OriginText p.line
        (Interval.new st.origin_last_end (st.origin_last_end + len))
        (Interval.new st.merge_last_end (st.merge_last_end + len))
        (Interval.new st.final_last_end (st.final_last_end + len))]
    else st.texts
  { final_last_end := p.next_final_col
    origin_last_end := p.next_origin_col
    merge_last_end := p.next_merge_col
    texts := texts ++ [Text.Phantom p]
    offset := offset }

/-- The whole loop. -/
def buildLoop (st : BState) (l : List PhantomText) : BState :=
  l.foldl buildStep st

/-- `PhantomTextLine`. -/
structure PhantomTextLine where
  line : Nat
  offset_of_line : Nat
  origin_text_len : Nat
  final_text_len : Nat
  texts : List Text
  deriving DecidableEq, Repr

namespace PhantomTextLine

/-- `PhantomTextLine::new`. -/
def new (line : Nat) (origin_text_len : Nat) (offset_of_line : Nat)
    (phantom_texts : List PhantomText) : PhantomTextLine :=
  let st := buildLoop ⟨0, 0, 0, [], 0⟩ (sortSpans phantom_texts)
  let len := origin_text_len - st.origin_last_end
  let texts :=
    if 0 < len then
      st.texts ++ [Text.OriginText line
        (Interval.new st.origin_last_end (st.origin_last_end + len))
        (Interval.new st.merge_last_end (st.merge_last_end + len))
        (Interval.new st.final_last_end (st.final_last_end + len))]
    else st.texts
  { line := line
    offset_of_line := offset_of_line
    origin_text_len := origin_text_len
    final_text_len := usize_offset origin_text_len st.offset
    texts := texts }

end PhantomTextLine

/-- Whether some `usize_offset` call of `PhantomTextLine::new` would trip
its `assert!(rs >= 0)` (including the final one computing
`final_text_len`): the constructor panics instead of returning. -/
def buildPanics (offset : Int) : List PhantomText → Nat → Bool
  | [], origin_text_len => decide ((origin_text_len : Int) + offset < 0)
  | p :: rest, origin_text_len =>
      decide ((p.merge_col : Int) + offset < 0) ||
        buildPanics (offset + (p.text.length : Int) - (p.foldedLen : Int))
          rest origin_text_len

/-- Panic predicate for `PhantomTextLine::new` on the given raw spans. -/
def newPanics (origin_text_len : Nat) (spans : List PhantomText) : Bool :=
  buildPanics 0 (sortSpans spans) origin_text_len

/-- `PhantomTextMultiLine`. -/
structure PhantomTextMultiLine where
  line : Nat
  last_line : Nat
  offset_of_line : Nat
  origin_text_len : Nat
  final_text_len : Nat
  len_of_line : List (Nat × Nat × Nat)
  text : List Text
  deriving DecidableEq, Repr

namespace PhantomTextMultiLine

/-- `PhantomTextMultiLine::new`. -/
def new (line : PhantomTextLine) : PhantomTextMultiLine :=
  { line := line.line
    last_line := line.line
    offset_of_line := line.offset_of_line
    origin_text_len := line.origin_text_len
    final_text_len := line.final_text_len
    len_of_line := [(line.line, line.origin_text_len, line.final_text_len)]
    text := line.texts }

/-- `PhantomTextMultiLine::merge`.  The `for _ in index..line.line-self.line`
padding loop duplicates the last `len_of_line` entry for origin lines fully
consumed by a fold (`last()` is modelled by `getLastD`; the source would
panic on an empty table, which the constructor rules out). -/
def merge (ml : PhantomTextMultiLine) (line : PhantomTextLine) :
    PhantomTextMultiLine :=
  let index := ml.len_of_line.length
  let last_len := ml.len_of_line.getLastD (0, 0, 0)
  let pad := List.replicate (line.line - ml.line - index) last_len
  let len_of_line := ml.len_of_line ++ pad ++
    [(line.line, line.origin_text_len, line.final_text_len)]
  let origin_text_len := ml.origin_text_len
  let final_text_len := ml.final_text_len
  { ml with
    last_line := line.line
    len_of_line := len_of_line
    origin_text_len := ml.origin_text_len + line.origin_text_len
    final_text_len := ml.final_text_len + line.final_text_len
    text := ml.text ++
      line.texts.map (Text.merge_to origin_text_len final_text_len) }

end PhantomTextMultiLine

/-- The predicate of the `find` inside `text_of_final_offset`. -/
def finalMatch (final_offset : Nat) : Text → Bool
  | .Phantom p =>
      decide (p.final_col ≤ final_offset) &&
        decide (final_offset < p.next_final_col)
  | .OriginText _ _ _ final_col => final_col.contains final_offset
  | .Empty => false

/-- The predicate of the `find` inside `text_of_origin_line_col`. -/
def originMatch (origin_line origin_col : Nat) : Text → Bool
  | .Phantom p =>
      (decide (p.line = origin_line) && decide (p.col ≤ origin_col) &&
        decide (origin_col < p.next_origin_col)) ||
      (match p.next_line with
       | some nl => decide (origin_line < nl)
       | none => false)
  | .OriginText line col _ _ =>
      decide (line = origin_line) && col.contains origin_col
  | .Empty => true

/-- The predicate of the `find` inside `text_of_merge_col` (note the
inclusive `merge_col <= c && c <= next_merge_col` on phantoms). -/
def mergeMatch (merge_col : Nat) : Text → Bool
  | .Phantom p =>
      decide (p.merge_col ≤ merge_col) &&
        decide (merge_col ≤ p.next_merge_col)
  | .OriginText _ _ mc _ => mc.contains merge_col
  | .Empty => true

namespace PhantomTextMultiLine

/-- `PhantomTextMultiLine::text_of_final_offset`. -/
def text_of_final_offset (ml : PhantomTextMultiLine) (final_offset : Nat) :
    Option Text :=
  ml.text.find? (finalMatch final_offset)

/-- `PhantomTextMultiLine::text_of_origin_line_col`. -/
def text_of_origin_line_col (ml : PhantomTextMultiLine)
    (origin_line origin_col : Nat) : Option Text :=
  ml.text.find? (originMatch origin_line origin_col)

/-- `PhantomTextMultiLine::text_of_merge_col`. -/
def text_of_merge_col (ml : PhantomTextMultiLine) (merge_col : Nat) :
    Option Text :=
  ml.text.find? (mergeMatch merge_col)

/-- `PhantomTextMultiLine::origin_col_of_final_offset`. -/
def origin_col_of_final_offset (ml : PhantomTextMultiLine)
    (final_col : Nat) : Option (Nat × Nat) :=
  match ml.text_of_final_offset final_col with
  | some (.OriginText line col _ fcol) =>
      some (line, col.start + final_col - fcol.start)
  | _ => none

/-- `PhantomTextMultiLine::col_at`. -/
def col_at (ml : PhantomTextMultiLine) (merge_col : Nat) : Option Nat :=
  match ml.text_of_merge_col merge_col with
  | some (.OriginText _ _ mc fcol) =>
      some (fcol.start + merge_col - mc.start)
  | _ => none

/-- `PhantomTextMultiLine::final_col_of_col` (the `_before_cursor` flag is
ignored by the source).  The `Text::Empty` arm is a `panic!()` in the
source, modelled as `0`. -/
def final_col_of_col (ml : PhantomTextMultiLine) (line pre_col : Nat)
    (_before_cursor : Bool) : Nat :=
  if ml.text = [] then pre_col
  else
    match ml.text_of_origin_line_col line pre_col with
    | some (.Phantom p) =>
        if p.col = 0 then p.next_final_col else p.final_col - 1
    | some (.OriginText _ col _ fcol) => fcol.start + pre_col - col.start
    | some .Empty => 0
    | none => ml.final_text_len - 1

/-- `PhantomTextMultiLine::cursor_position_of_final_col`, returning
`(origin_line, col in that line, absolute buffer offset)`.  The
`Text::Empty` arm is a `panic!()` in the source, modelled as `(0,0,0)`;
`len_of_line.last().unwrap()` is modelled by `getLastD`. -/
def cursor_position_of_final_col (ml : PhantomTextMultiLine) (col : Nat) :
    Nat × Nat × Nat :=
  match ml.text_of_final_offset col with
  | some (.Phantom p) => (p.line, p.col, ml.offset_of_line + p.merge_col)
  | some (.OriginText line tcol mcol fcol) =>
      (line, tcol.start + col - fcol.start,
        ml.offset_of_line + mcol.start + col - fcol.start)
  | some .Empty => (0, 0, 0)
  | none =>
      let e := ml.len_of_line.getLastD (0, 0, 0)
      (e.1, max e.2.1 1 - 1,
        max (ml.offset_of_line + ml.origin_text_len) 1 - 1)

/-- `PhantomTextMultiLine::phantom_text_of_final_col`.  Note the source
computes the in-phantom offset as `text.final_col - col` (usize), modelled
as truncated subtraction. -/
def phantom_text_of_final_col (ml : PhantomTextMultiLine) (col : Nat) :
    Option (PhantomText × Nat) :=
  match ml.text_of_final_offset col with
  | some (.Phantom p) => some (p, p.final_col - col)
  | some _ => none
  | none => none

end PhantomTextMultiLine

/-- `sub_str(text, begin, end)`: the source uses unchecked byte slicing;
modelled as total char slicing (the texts of interest are ASCII). -/
def sub_str (text : String) (b e : Nat) : String :=
  ⟨(text.data.drop b).take (e - b)⟩

/-- `combine_with_text`: splice the phantom texts into the origin string in
segment order (`Text::Empty` stops the loop). -/
def combine_with_text : List Text → String → String
  | [], _ => ""
  | .Phantom p :: rest, origin =>
      p.text ++ combine_with_text rest origin
  | .OriginText _ _ mc _ :: rest, origin =>
      sub_str origin mc.start mc.stop ++ combine_with_text rest origin
  | .Empty :: _, _ => ""

/-- `PhantomTextMultiLine::final_line_content`. -/
def PhantomTextMultiLine.final_line_content (ml : PhantomTextMultiLine)
    (origin : String) : String :=
  combine_with_text ml.text origin

end Floem

namespace Floem

/-! ## Invariants and well-formedness predicates -/

/-- A segment that is not the `Empty` marker. -/
def notEmpty : Text → Bool
  | .Empty => false
  | _ => true

/-- The start of a segment's extent in final space. -/
def finalStart : Text → Nat
  | .Phantom p => p.final_col
  | .OriginText _ _ _ final_col => final_col.start
  | .Empty => 0

/-- The end (exclusive) of a segment's extent in final space. -/
def finalStop : Text → Nat
  | .Phantom p => p.next_final_col
  | .OriginText _ _ _ final_col => final_col.stop
  | .Empty => 0

/-- The segment list's final-space extents are contiguous, non-overlapping,
and concatenate to exactly `[s, n)` (the coverage invariant of the spec,
with `s = 0` and `n = final_text_len`). -/
def coversFrom (s : Nat) : List Text → Nat → Bool
  | [], n => decide (s = n)
  | t :: rest, n =>
      notEmpty t && decide (finalStart t = s) && decide (s ≤ finalStop t) &&
        coversFrom (finalStop t) rest n

/-- Every `OriginText` segment's origin interval and final interval have the
same length (true of all constructor-emitted segments). -/
def originTextLensOk (l : List Text) : Bool :=
  l.all fun t =>
    match t with
    | .OriginText _ col _ final_col =>
        decide (col.stop - col.start = final_col.stop - final_col.start)
    | _ => true

/-- Helper for `originSound`: walking the list with the already-seen prefix
accumulated, no earlier segment origin-matches a position that lies inside a
later `OriginText` segment's origin interval. -/
def originSoundAux : List Text → List Text → Bool
  | _, [] => true
  | seen, t :: rest =>
      (match t with
       | .OriginText line col _ _ =>
           decide (∀ c < col.stop, col.start ≤ c →
             ∀ s ∈ seen, originMatch line c s = false)
       | _ => true) && originSoundAux (seen ++ [t]) rest

/-- Origin-lookup soundness: the find-first origin scan cannot be hijacked
by a segment that precedes the `OriginText` segment owning the queried
origin position. -/
def originSound (l : List Text) : Bool :=
  originSoundAux [] l

/-- The sorted span list is chain-consistent with the line: each span starts
at or after the previous span's consumed merge range, its `col` agrees with
its `merge_col` (single-line construction), and the last consumed merge
column is within the line. -/
def mergeChainFrom (m : Nat) : List PhantomText → Nat → Bool
  | [], origin_text_len => decide (m ≤ origin_text_len)
  | p :: rest, origin_text_len =>
      decide (m ≤ p.merge_col) && decide (p.col = p.merge_col) &&
        mergeChainFrom p.next_merge_col rest origin_text_len

/-- Well-formed spans for `PhantomTextLine::new`. -/
def wfSpans (origin_text_len : Nat) (spans : List PhantomText) : Bool :=
  mergeChainFrom 0 (sortSpans spans) origin_text_len

/-- The merge ranges consumed by `LineFoldedRang` spans. -/
def foldRanges (spans : List PhantomText) : List (Nat × Nat) :=
  spans.filterMap fun p =>
    match p.kind with
    | .LineFoldedRang _ len => some (p.merge_col, p.merge_col + len)
    | _ => none

/-- Pairwise disjointness of half-open ranges. -/
def rangesDisjoint : List (Nat × Nat) → Bool
  | [] => true
  | r :: rest =>
      (rest.all fun r2 => decide (r.2 ≤ r2.1) || decide (r2.2 ≤ r.1)) &&
        rangesDisjoint rest

/-- The precondition of the original coverage claim: the fold-consumed merge
ranges are pairwise disjoint and contained in `[0, origin_text_len)`. -/
def foldRangesOk (spans : List PhantomText) (origin_text_len : Nat) : Bool :=
  rangesDisjoint (foldRanges spans) &&
    (foldRanges spans).all fun r => decide (r.2 ≤ origin_text_len)

/-- The signed final-length contribution of one span:
`text.len() - folded len`. -/
def phStep (p : PhantomText) : Int :=
  (p.text.length : Int) - (p.foldedLen : Int)

/-- Total signed final-length delta of a span list. -/
def stepSum (l : List PhantomText) : Int :=
  (l.map phStep).sum

/-- The constructor inputs of one origin line (quantification harness for
the whole-pipeline theorems). -/
structure LineSpec where
  line : Nat
  origin_text_len : Nat
  offset_of_line : Nat
  spans : List PhantomText

/-- The `PhantomTextLine` built from a `LineSpec`. -/
def LineSpec.toLine (s : LineSpec) : PhantomTextLine :=
  PhantomTextLine.new s.line s.origin_text_len s.offset_of_line s.spans

/-- Well-formedness of a `LineSpec`'s spans. -/
def LineSpec.wf (s : LineSpec) : Bool :=
  wfSpans s.origin_text_len s.spans

/-- `PhantomTextMultiLine::new` on the first line followed by a `merge` for
each further line, in order. -/
def buildMultiLine (first : LineSpec) (rest : List LineSpec) :
    PhantomTextMultiLine :=
  rest.foldl (fun ml s => ml.merge s.toLine)
    (PhantomTextMultiLine.new first.toLine)

/-! ## Concrete data (the scenarios of the source's own test module) -/

/-- A `LineFoldedRang` span input (`final_col` is recomputed by the
constructor, so its input value is irrelevant). -/
def mkFold (line col merge_col : Nat) (next_line : Option Nat) (len : Nat)
    (text : String) : PhantomText :=
  { kind := .LineFoldedRang next_line len, line := line, col := col,
    merge_col := merge_col, final_col := 0, text := text }

/-- Origin line 1 `"    if true {\r\n"` with its fold span (the source
test's `init_folded_line(2, false)`). -/
def line2 : PhantomTextLine :=
  PhantomTextLine.new 1 15 0 [mkFold 1 12 12 (some 3) 3 "\x7b...\x7d"]

/-- Origin line 3 `"    } else {\r\n"`, first five characters consumed by a
zero-text fold (the source test's `init_folded_line(4, false)`). -/
def line4 : PhantomTextLine :=
  PhantomTextLine.new 3 14 0 [mkFold 3 0 0 none 5 ""]

/-- Origin line 3 with both folds (the source test's
`init_folded_line(4, true)`). -/
def line_folded_4 : PhantomTextLine :=
  PhantomTextLine.new 3 14 0
    [mkFold 3 0 0 none 5 "", mkFold 3 11 11 (some 5) 3 "\x7b...\x7d"]

/-- Origin line 5 `"    }\r\n"`, first five characters consumed by a
zero-text fold (the source test's `init_folded_line(6, false)`). -/
def line6 : PhantomTextLine :=
  PhantomTextLine.new 5 7 0 [mkFold 5 0 0 none 5 ""]

/-- Origin line 6 `"    let a = A;\r\n"` with an inlay hint `": A "` at
column 9 (the source test's `let_data`). -/
def letLine : PhantomTextLine :=
  PhantomTextLine.new 6 16 0
    [{ kind := .InlayHint, line := 6, col := 9, merge_col := 9,
       final_col := 0, text := ": A " }]

/-- The single-line multi-line over `letLine`. -/
def letML : PhantomTextMultiLine :=
  PhantomTextMultiLine.new letLine

/-- The three-line fold-collapsed row of the source test's
`get_merged_data`: `"    if true {...} else {...}\r\n"`. -/
def mergedML : PhantomTextMultiLine :=
  ((PhantomTextMultiLine.new line2).merge line_folded_4).merge line6

/-- The two-line merge of the fold-collapse scenario (claim C7). -/
def c7ML : PhantomTextMultiLine :=
  (PhantomTextMultiLine.new line2).merge line4

/-- A span list the single-line constructor accepts whose `col` disagrees
with its `merge_col`: the resulting segment data is inconsistent. -/
def junkSpans : List PhantomText :=
  [{ kind := .Ime, line := 0, col := 0, merge_col := 2, final_col := 0,
     text := "X" }]

/-- The line built from `junkSpans` (origin length 4). -/
def junkML : PhantomTextMultiLine :=
  PhantomTextMultiLine.new (PhantomTextLine.new 0 4 0 junkSpans)

/-- A non-fold span with `col ≠ merge_col`: no fold ranges at all, so the
fold-range precondition holds vacuously, yet coverage fails. -/
def junk2Spans : List PhantomText :=
  [{ kind := .Ime, line := 0, col := 3, merge_col := 2, final_col := 0,
     text := "X" }]

/-- The line built from `junk2Spans` (origin length 4). -/
def junk2Line : PhantomTextLine :=
  PhantomTextLine.new 0 4 0 junk2Spans

end Floem

namespace Floem

/-! ## Generic helper lemmas -/

theorem find?_append_first {α : Type} {p : α → Bool} :
    ∀ (pre : List α) (a : α) (post : List α),
      (∀ x ∈ pre, p x = false) → p a = true →
      (pre ++ a :: post).find? p = some a := by
  intro pre a post hpre ha
  induction pre with
  | nil => simpa using List.find?_cons_of_pos post ha
  | cons x xs ih =>
      have hx : p x = false := hpre x (by simp)
      have : ((x :: xs) ++ a :: post).find? p = (xs ++ a :: post).find? p := by
        apply List.find?_cons_of_neg
        simp [hx]
      rw [this]
      exact ih fun y hy => hpre y (by simp [hy])

theorem find?_decomp {α : Type} {p : α → Bool} :
    ∀ (l : List α) (a : α), l.find? p = some a →
      ∃ pre post, l = pre ++ a :: post ∧ (∀ x ∈ pre, p x = false) ∧
        p a = true := by
  intro l
  induction l with
  | nil => intro a h; simp [List.find?] at h
  | cons x xs ih =>
      intro a h
      by_cases hx : p x = true
      · rw [List.find?_cons_of_pos _ hx] at h
        obtain rfl : x = a := by simpa using h
        exact ⟨[], xs, by simp, by simp, hx⟩
      · rw [List.find?_cons_of_neg _ hx] at h
        obtain ⟨pre, post, heq, hpre, ha⟩ := ih a h
        refine ⟨x :: pre, post, by simp [heq], ?_, ha⟩
        intro y hy
        rcases List.mem_cons.mp hy with rfl | hy
        · simpa using hx
        · exact hpre y hy

theorem coversFrom_append {A : List Text} :
    ∀ {s e n : Nat} {B : List Text},
      coversFrom s A e = true → coversFrom e B n = true →
      coversFrom s (A ++ B) n = true := by
  induction A with
  | nil =>
      intro s e n B hA hB
      have : s = e := by simpa [coversFrom] using hA
      simpa [this] using hB
  | cons t rest ih =>
      intro s e n B hA hB
      simp only [coversFrom, Bool.and_eq_true, decide_eq_true_eq] at hA
      obtain ⟨⟨⟨h1, h2⟩, h3⟩, h4⟩ := hA
      simp only [List.cons_append, coversFrom, Bool.and_eq_true,
        decide_eq_true_eq]
      exact ⟨⟨⟨h1, h2⟩, h3⟩, ih h4 hB⟩

theorem coversFrom_le :
    ∀ {l : List Text} {s n : Nat}, coversFrom s l n = true → s ≤ n := by
  intro l
  induction l with
  | nil => intro s n h; simp [coversFrom] at h; omega
  | cons t rest ih =>
      intro s n h
      simp only [coversFrom, Bool.and_eq_true, decide_eq_true_eq] at h
      obtain ⟨⟨⟨-, h2⟩, h3⟩, h4⟩ := h
      exact le_trans h3 (ih h4)

theorem coversFrom_stop_le :
    ∀ {l : List Text} {s n : Nat}, coversFrom s l n = true →
      ∀ t ∈ l, finalStop t ≤ n := by
  intro l
  induction l with
  | nil => intro s n _ t ht; simp at ht
  | cons u rest ih =>
      intro s n h t ht
      simp only [coversFrom, Bool.and_eq_true, decide_eq_true_eq] at h
      obtain ⟨⟨⟨-, -⟩, -⟩, h4⟩ := h
      rcases List.mem_cons.mp ht with rfl | ht
      · exact coversFrom_le h4
      · exact ih h4 t ht

theorem finalMatch_lt_stop {t : Text} {c : Nat} :
    finalMatch c t = true → c < finalStop t := by
  cases t with
  | Phantom p =>
      simp [finalMatch, finalStop, Bool.and_eq_true, decide_eq_true_eq]
  | OriginText line col mc fc =>
      simp [finalMatch, finalStop, Interval.contains, Bool.and_eq_true,
        decide_eq_true_eq]
  | Empty => simp [finalMatch]

theorem notEmpty_merge_to (o f : Nat) (t : Text) :
    notEmpty (Text.merge_to o f t) = notEmpty t := by
  cases t <;> rfl

theorem finalStart_merge_to (o f : Nat) {t : Text} (h : notEmpty t = true) :
    finalStart (Text.merge_to o f t) = finalStart t + f := by
  cases t with
  | Phantom p => rfl
  | OriginText line col mc fc => rfl
  | Empty => simp [notEmpty] at h

theorem finalStop_merge_to (o f : Nat) {t : Text} (h : notEmpty t = true) :
    finalStop (Text.merge_to o f t) = finalStop t + f := by
  cases t with
  | Phantom p =>
      obtain ⟨k, l, c, m, fc, tx⟩ := p
      simp [Text.merge_to, finalStop, PhantomText.next_final_col_eq]
      omega
  | OriginText line col mc fc => rfl
  | Empty => simp [notEmpty] at h

theorem coversFrom_shift {o f : Nat} :
    ∀ {B : List Text} {s n : Nat}, coversFrom s B n = true →
      coversFrom (s + f) (B.map (Text.merge_to o f)) (n + f) = true := by
  intro B
  induction B with
  | nil =>
      intro s n h
      simp only [coversFrom, decide_eq_true_eq] at h ⊢
      simp [h]
  | cons t rest ih =>
      intro s n h
      simp only [coversFrom, Bool.and_eq_true, decide_eq_true_eq] at h
      obtain ⟨⟨⟨h1, h2⟩, h3⟩, h4⟩ := h
      simp only [List.map_cons, coversFrom, Bool.and_eq_true,
        decide_eq_true_eq]
      refine ⟨⟨⟨?_, ?_⟩, ?_⟩, ?_⟩
      · rw [notEmpty_merge_to]; exact h1
      · rw [finalStart_merge_to o f h1, h2]
      · rw [finalStop_merge_to o f h1]; omega
      · rw [finalStop_merge_to o f h1]; exact ih h4

theorem originSoundAux_spec :
    ∀ (pre : List Text) (seen rest post : List Text) (oline : Nat)
      (ocol omc ofc : Interval) (c : Nat),
      originSoundAux seen rest = true →
      rest = pre ++ Text.OriginText oline ocol omc ofc :: post →
      ocol.start ≤ c → c < ocol.stop →
      ∀ s ∈ seen ++ pre, originMatch oline c s = false := by
  intro pre
  induction pre with
  | nil =>
      intro seen rest post oline ocol omc ofc c hsound heq hc1 hc2 s hs
      subst heq
      simp only [originSoundAux, Bool.and_eq_true] at hsound
      have hall := hsound.1
      rw [decide_eq_true_eq] at hall
      simp only [List.append_nil] at hs
      exact hall c hc2 hc1 s hs
  | cons t pre' ih =>
      intro seen rest post oline ocol omc ofc c hsound heq hc1 hc2 s hs
      subst heq
      simp only [List.cons_append, originSoundAux, Bool.and_eq_true]
        at hsound
      have htail := hsound.2
      have := ih (seen ++ [t]) _ post oline ocol omc ofc c htail rfl hc1 hc2
      have hmem : s ∈ (seen ++ [t]) ++ pre' := by
        simp only [List.append_assoc, List.singleton_append]
        simpa using hs
      exact this s hmem

end Floem

namespace Floem

/-! ## Arithmetic facts about the constructor -/

theorem stepSum_nil : stepSum [] = 0 := rfl

theorem stepSum_cons (p : PhantomText) (l : List PhantomText) :
    stepSum (p :: l) = phStep p + stepSum l := by
  simp [stepSum]

theorem stepSum_sortSpans (l : List PhantomText) :
    stepSum (sortSpans l) = stepSum l := by
  unfold stepSum sortSpans
  exact ((List.perm_insertionSort _ l).map phStep).sum_eq

theorem stepSum_split (l : List PhantomText) :
    stepSum l = ((l.map fun p => (p.text.length : Int)).sum)
      - ((l.map fun p => (p.foldedLen : Int)).sum) := by
  induction l with
  | nil => simp [stepSum]
  | cons p rest ih =>
      rw [stepSum_cons, ih]
      simp [phStep]
      ring

theorem buildPanics_of_neg :
    ∀ (l : List PhantomText) (offset : Int) (otl : Nat),
      (otl : Int) + offset + stepSum l < 0 → buildPanics offset l otl = true := by
  intro l
  induction l with
  | nil =>
      intro offset otl h
      simp only [stepSum_nil, add_zero] at h
      simp [buildPanics, h]
  | cons p rest ih =>
      intro offset otl h
      rw [stepSum_cons] at h
      simp only [buildPanics, Bool.or_eq_true]
      right
      apply ih
      simp only [phStep] at h
      omega

/-! ## The structural invariant established by `PhantomTextLine::new` -/

theorem buildLoop_inv :
    ∀ (l : List PhantomText) (st : BState) (otl : Nat),
      mergeChainFrom st.merge_last_end l otl = true →
      (st.merge_last_end : Int) + st.offset = (st.final_last_end : Int) →
      st.origin_last_end = st.merge_last_end →
      coversFrom 0 st.texts st.final_last_end = true →
      ((buildLoop st l).merge_last_end : Int) + (buildLoop st l).offset
          = ((buildLoop st l).final_last_end : Int) ∧
        (buildLoop st l).origin_last_end = (buildLoop st l).merge_last_end ∧
        coversFrom 0 (buildLoop st l).texts (buildLoop st l).final_last_end
          = true ∧
        (buildLoop st l).merge_last_end ≤ otl ∧
        (buildLoop st l).offset = st.offset + stepSum l := by
  intro l
  induction l with
  | nil =>
      intro st otl hchain hfin horig hcov
      have hle : st.merge_last_end ≤ otl := by
        simpa [mergeChainFrom] using hchain
      exact ⟨hfin, horig, hcov, hle, by simp [buildLoop, stepSum]⟩
  | cons p rest ih =>
      intro st otl hchain hfin horig hcov
      simp only [mergeChainFrom, Bool.and_eq_true, decide_eq_true_eq]
        at hchain
      obtain ⟨⟨hm, hcol⟩, hchain'⟩ := hchain
      have hfc : ((usize_offset p.merge_col st.offset : Nat) : Int)
          = (p.merge_col : Int) + st.offset := by
        unfold usize_offset
        apply Int.toNat_of_nonneg
        omega
      set fc := usize_offset p.merge_col st.offset with hfc_def
      have hfc_ge : st.final_last_end ≤ fc := by omega
      have h1 : (buildStep st p).merge_last_end = p.next_merge_col := rfl
      have h2 : (buildStep st p).origin_last_end = p.next_origin_col := rfl
      have h3 : (buildStep st p).offset
          = st.offset + (p.text.length : Int) - (p.foldedLen : Int) := rfl
      have h4 : (buildStep st p).final_last_end = fc + p.text.length := by
        have := PhantomText.next_final_col_eq { p with final_col := fc }
        simpa [buildStep] using this
      have hnm : p.next_merge_col = p.merge_col + p.foldedLen := rfl
      have hno : p.next_origin_col = p.col + p.foldedLen := rfl
      have hcovB : coversFrom st.final_last_end
          [Text.Phantom { p with final_col := fc }] (fc + p.text.length)
          = true ∨ st.final_last_end < fc := by
        by_cases hlt : st.final_last_end < fc
        · exact Or.inr hlt
        · left
          have : st.final_last_end = fc := by omega
          simp [coversFrom, notEmpty, finalStart, finalStop,
            PhantomText.next_final_col_eq, this]
      have hcov' : coversFrom 0 (buildStep st p).texts
          ((buildStep st p).final_last_end) = true := by
        rw [h4]
        by_cases hlt : st.final_last_end < fc
        · have htexts : (buildStep st p).texts
              = st.texts ++
                ([Text.OriginText p.line
                  (Interval.new st.origin_last_end
                    (st.origin_last_end + (fc - st.final_last_end)))
                  (Interval.new st.merge_last_end
                    (st.merge_last_end + (fc - st.final_last_end)))
                  (Interval.new st.final_last_end
                    (st.final_last_end + (fc - st.final_last_end)))] ++
                 [Text.Phantom { p with final_col := fc }]) := by
            simp only [buildStep, if_pos hlt, List.append_assoc]
          rw [htexts]
          apply coversFrom_append hcov
          simp only [coversFrom, notEmpty, finalStart, finalStop,
            Interval.new, Bool.and_eq_true, decide_eq_true_eq,
            PhantomText.next_final_col_eq, true_and, and_true]
          omega
        · have heqfc : st.final_last_end = fc := by omega
          have htexts : (buildStep st p).texts
              = st.texts ++ [Text.Phantom { p with final_col := fc }] := by
            simp only [buildStep, if_neg hlt]
          rw [htexts]
          apply coversFrom_append hcov
          simp only [coversFrom, notEmpty, finalStart, finalStop,
            Bool.and_eq_true, decide_eq_true_eq,
            PhantomText.next_final_col_eq, true_and, and_true]
          omega
      have hstep : buildLoop st (p :: rest) = buildLoop (buildStep st p) rest :=
        rfl
      rw [hstep]
      have := ih (buildStep st p) otl
        (by rw [h1]; exact hchain')
        (by rw [h1, h3, h4, hnm]; omega)
        (by rw [h1, h2, hnm, hno, hcol])
        hcov'
      obtain ⟨c1, c2, c3, c4, c5⟩ := this
      refine ⟨c1, c2, c3, c4, ?_⟩
      rw [c5, h3, stepSum_cons, phStep]
      ring

end Floem

namespace Floem

theorem new_invariant (line otl off : Nat) (spans : List PhantomText)
    (h : wfSpans otl spans = true) :
    coversFrom 0 (PhantomTextLine.new line otl off spans).texts
      (PhantomTextLine.new line otl off spans).final_text_len = true ∧
    ((PhantomTextLine.new line otl off spans).final_text_len : Int)
      = (otl : Int) + stepSum (sortSpans spans) := by
  have h0 := buildLoop_inv (sortSpans spans) ⟨0, 0, 0, [], 0⟩ otl h
    (by simp) rfl rfl
  set st := buildLoop ⟨0, 0, 0, [], 0⟩ (sortSpans spans) with hst
  obtain ⟨hfin, horig, hcov, hle, hoff⟩ := h0
  have hftl : (PhantomTextLine.new line otl off spans).final_text_len
      = usize_offset otl st.offset := rfl
  have hftl' : ((PhantomTextLine.new line otl off spans).final_text_len : Int)
      = (otl : Int) + st.offset := by
    rw [hftl]
    unfold usize_offset
    apply Int.toNat_of_nonneg
    omega
  have hftl2 : ((PhantomTextLine.new line otl off spans).final_text_len : Int)
      = (otl : Int) + stepSum (sortSpans spans) := by
    rw [hftl', hoff]
    ring
  refine ⟨?_, hftl2⟩
  have htexts : (PhantomTextLine.new line otl off spans).texts
      = if 0 < otl - st.origin_last_end then
          st.texts ++ [Text.OriginText line
            (Interval.new st.origin_last_end
              (st.origin_last_end + (otl - st.origin_last_end)))
            (Interval.new st.merge_last_end
              (st.merge_last_end + (otl - st.origin_last_end)))
            (Interval.new st.final_last_end
              (st.final_last_end + (otl - st.origin_last_end)))]
        else st.texts := rfl
  rw [htexts]
  by_cases hlen : 0 < otl - st.origin_last_end
  · rw [if_pos hlen]
    apply coversFrom_append hcov
    simp only [coversFrom, notEmpty, finalStart, finalStop, Interval.new,
      Bool.and_eq_true, decide_eq_true_eq, true_and, and_true]
    omega
  · rw [if_neg hlen]
    have : (PhantomTextLine.new line otl off spans).final_text_len
        = st.final_last_end := by omega
    rw [this]
    exact hcov

theorem multiline_new_text (tl : PhantomTextLine) :
    (PhantomTextMultiLine.new tl).text = tl.texts := rfl

theorem multiline_new_final (tl : PhantomTextLine) :
    (PhantomTextMultiLine.new tl).final_text_len = tl.final_text_len := rfl

theorem merge_text_eq (ml : PhantomTextMultiLine) (tl : PhantomTextLine) :
    (ml.merge tl).text = ml.text ++
      tl.texts.map (Text.merge_to ml.origin_text_len ml.final_text_len) :=
  rfl

theorem merge_final_eq (ml : PhantomTextMultiLine) (tl : PhantomTextLine) :
    (ml.merge tl).final_text_len
      = ml.final_text_len + tl.final_text_len := rfl

theorem merge_covers (ml : PhantomTextMultiLine) (tl : PhantomTextLine)
    (h1 : coversFrom 0 ml.text ml.final_text_len = true)
    (h2 : coversFrom 0 tl.texts tl.final_text_len = true) :
    coversFrom 0 (ml.merge tl).text (ml.merge tl).final_text_len = true := by
  rw [merge_text_eq, merge_final_eq]
  apply coversFrom_append h1
  have h3 := coversFrom_shift (o := ml.origin_text_len)
    (f := ml.final_text_len) h2
  rw [Nat.zero_add] at h3
  rw [Nat.add_comm ml.final_text_len tl.final_text_len]
  exact h3

theorem buildMultiLine_covers_aux :
    ∀ (rest : List LineSpec) (ml : PhantomTextMultiLine),
      coversFrom 0 ml.text ml.final_text_len = true →
      (∀ s ∈ rest, s.wf = true) →
      coversFrom 0 (rest.foldl (fun ml s => ml.merge s.toLine) ml).text
          (rest.foldl (fun ml s => ml.merge s.toLine) ml).final_text_len
          = true ∧
        (rest.foldl (fun ml s => ml.merge s.toLine) ml).final_text_len
          = ml.final_text_len
            + ((rest.map fun s => s.toLine.final_text_len).sum) := by
  intro rest
  induction rest with
  | nil => intro ml h _; exact ⟨h, by simp⟩
  | cons s rest' ih =>
      intro ml h hwf
      have hw : s.wf = true := hwf s (by simp)
      have hline := (new_invariant s.line s.origin_text_len s.offset_of_line
        s.spans hw).1
      have hm := merge_covers ml s.toLine h hline
      have := ih (ml.merge s.toLine) hm fun t ht => hwf t (by simp [ht])
      obtain ⟨hc, hs⟩ := this
      refine ⟨by simpa using hc, ?_⟩
      simp only [List.foldl_cons] at hs ⊢
      rw [hs, merge_final_eq]
      simp [LineSpec.toLine]
      omega

/-! ## `Text::Empty` is never constructed -/

theorem buildStep_no_empty (st : BState) (p : PhantomText)
    (h : Text.Empty ∉ st.texts) : Text.Empty ∉ (buildStep st p).texts := by
  intro hmem
  unfold buildStep at hmem
  simp only [List.mem_append, List.mem_singleton] at hmem
  rcases hmem with hmem | hmem
  · by_cases hlt : st.final_last_end < usize_offset p.merge_col st.offset
    · rw [if_pos hlt] at hmem
      simp only [List.mem_append, List.mem_singleton] at hmem
      rcases hmem with hmem | hmem
      · exact h hmem
      · simp at hmem
    · rw [if_neg hlt] at hmem
      exact h hmem
  · simp at hmem

theorem buildLoop_no_empty :
    ∀ (l : List PhantomText) (st : BState), Text.Empty ∉ st.texts →
      Text.Empty ∉ (buildLoop st l).texts := by
  intro l
  induction l with
  | nil => intro st h; exact h
  | cons p rest ih =>
      intro st h
      exact ih (buildStep st p) (buildStep_no_empty st p h)

theorem new_no_empty (line otl off : Nat) (spans : List PhantomText) :
    Text.Empty ∉ (PhantomTextLine.new line otl off spans).texts := by
  intro hmem
  have hne : Text.Empty ∉
      (buildLoop ⟨0, 0, 0, [], 0⟩ (sortSpans spans)).texts :=
    buildLoop_no_empty (sortSpans spans) ⟨0, 0, 0, [], 0⟩ (by simp)
  set st := buildLoop ⟨0, 0, 0, [], 0⟩ (sortSpans spans) with hst
  have htexts : (PhantomTextLine.new line otl off spans).texts
      = if 0 < otl - st.origin_last_end then
          st.texts ++ [Text.OriginText line
            (Interval.new st.origin_last_end
              (st.origin_last_end + (otl - st.origin_last_end)))
            (Interval.new st.merge_last_end
              (st.merge_last_end + (otl - st.origin_last_end)))
            (Interval.new st.final_last_end
              (st.final_last_end + (otl - st.origin_last_end)))]
        else st.texts := rfl
  rw [htexts] at hmem
  by_cases hlen : 0 < otl - st.origin_last_end
  · rw [if_pos hlen] at hmem
    simp only [List.mem_append, List.mem_singleton] at hmem
    rcases hmem with hmem | hmem
    · exact hne hmem
    · simp at hmem
  · rw [if_neg hlen] at hmem
    exact hne hmem

theorem merge_no_empty (ml : PhantomTextMultiLine) (tl : PhantomTextLine)
    (h1 : Text.Empty ∉ ml.text) (h2 : Text.Empty ∉ tl.texts) :
    Text.Empty ∉ (ml.merge tl).text := by
  intro hmem
  rw [merge_text_eq] at hmem
  rcases List.mem_append.mp hmem with hm | hm
  · exact h1 hm
  · obtain ⟨t, ht, heq⟩ := List.mem_map.mp hm
    cases t with
    | Phantom q => simp [Text.merge_to] at heq
    | OriginText a b c d => simp [Text.merge_to] at heq
    | Empty => exact h2 ht

theorem find?_ne_some_empty (l : List Text) (p : Text → Bool)
    (h : Text.Empty ∉ l) : l.find? p ≠ some Text.Empty := by
  intro hf
  exact h (List.mem_of_find?_eq_some hf)

end Floem

namespace Floem

/-! ## Supporting concrete values for witnesses and counterexamples -/

/-- The inlay-hint span list of the `let`-line scenario. -/
def letSpans : List PhantomText :=
  [{ kind := .InlayHint, line := 6, col := 9, merge_col := 9,
     final_col := 0, text := ": A " }]

/-- A zero-text fold longer than its line: the net final length is
negative. -/
def overfoldSpans : List PhantomText :=
  [mkFold 0 0 0 none 5 ""]

/-- `LineSpec` of origin line 1 (the `init_folded_line(2,_)` data). -/
def spec2 : LineSpec := ⟨1, 15, 0, [mkFold 1 12 12 (some 3) 3 "\x7b...\x7d"]⟩

/-- `LineSpec` of origin line 3 with both folds
(the `init_folded_line(4,true)` data). -/
def spec4 : LineSpec :=
  ⟨3, 14, 0, [mkFold 3 0 0 none 5 "", mkFold 3 11 11 (some 5) 3 "\x7b...\x7d"]⟩

/-- `LineSpec` of origin line 5 (the `init_folded_line(6,_)` data). -/
def spec6 : LineSpec := ⟨5, 7, 0, [mkFold 5 0 0 none 5 ""]⟩

/-- The inlay-hint phantom as it sits inside `letML` after construction
(`final_col` computed to 9). -/
def letPhantomBuilt : PhantomText :=
  { kind := .InlayHint, line := 6, col := 9, merge_col := 9,
    final_col := 9, text := ": A " }

/-- The line-1 fold phantom as it sits inside `c7ML`/`mergedML` after
construction (`final_col` computed to 12). -/
def fold2Built : PhantomText :=
  { kind := .LineFoldedRang (some 3) 3, line := 1, col := 12,
    merge_col := 12, final_col := 12, text := "\x7b...\x7d" }

/-! ## Claim theorems -/

/-- C4 (code_bug): at final column 10, which the inlay-hint phantom covers
(`final_col = 9 ≤ 10 < 13`), `phantom_text_of_final_col` returns offset
`final_col - col = 0` (in Rust, `9usize - 10` — an underflow panic in a
debug build, a wrap in release), while the claimed offset within the
phantom is `col - final_col = 1`. -/
theorem C4_phantom_offset_bug :
    letML.phantom_text_of_final_col 10 = some (letPhantomBuilt, 0) ∧
    letPhantomBuilt.final_col ≤ 10 ∧
    10 < letPhantomBuilt.next_final_col ∧
    (0 : Nat) ≠ 10 - letPhantomBuilt.final_col := by
  decide

/-- C7 (confirmed): merging the annotated `"    if true {\r\n"` line with
the annotated `"    } else {\r\n"` line (first five origin characters
consumed by a zero-text fold) renders
`"    if true {...} else {\r\n"`, and final column 19 (the `l` of `else`)
resolves to origin line 3, origin column 7. -/
theorem C7_fold_collapse :
    c7ML.final_line_content "    if true \x7b\r\n    \x7d else \x7b\r\n"
      = "    if true \x7b...\x7d else \x7b\r\n" ∧
    (c7ML.cursor_position_of_final_col 19).1 = 3 ∧
    (c7ML.cursor_position_of_final_col 19).2.1 = 7 := by
  decide

/-- C8 counterexample: the empty line does not carry the `Empty` segment
variant — `PhantomTextLine::new(6, 0, 0, [])` produces an empty segment
list (`Text::Empty` is never constructed anywhere). -/
theorem C8_counterexample :
    (PhantomTextLine.new 6 0 0 []).texts = [] ∧
    Text.Empty ∉ (PhantomTextLine.new 6 0 0 []).texts := by
  decide

/-- C8 (amended): an origin line with `origin_text_len = 0` and no spans
produces a line whose segment list is empty (not an `Empty`-marked one)
with `final_text_len = 0`; on the resulting single-line multi-line
`cursor_position_of_final_col` returns the line's start (origin column 0)
for every final column, the `Option`-returning queries return `none`, and
`final_col_of_col` returns its input column unchanged — none of them
panics. -/
theorem C8_empty_line (L off c pc : Nat) (b : Bool) :
    (PhantomTextLine.new L 0 off []).texts = [] ∧
    (PhantomTextLine.new L 0 off []).final_text_len = 0 ∧
    ((PhantomTextMultiLine.new
      (PhantomTextLine.new L 0 off [])).cursor_position_of_final_col c).1
        = L ∧
    ((PhantomTextMultiLine.new
      (PhantomTextLine.new L 0 off [])).cursor_position_of_final_col c).2.1
        = 0 ∧
    (PhantomTextMultiLine.new
      (PhantomTextLine.new L 0 off [])).origin_col_of_final_offset c
        = none ∧
    (PhantomTextMultiLine.new
      (PhantomTextLine.new L 0 off [])).phantom_text_of_final_col c
        = none ∧
    (PhantomTextMultiLine.new (PhantomTextLine.new L 0 off [])).col_at c
        = none ∧
    (PhantomTextMultiLine.new
      (PhantomTextLine.new L 0 off [])).final_col_of_col L pc b = pc :=
  ⟨rfl, rfl, rfl, rfl, rfl, rfl, rfl, rfl⟩

/-- C2 (confirmed): for well-formed spans (sorted merge chain that fits in
the line), the final text length equals
`origin_text_len + Σ text.len() - Σ folded len`; whenever that signed
quantity is negative, the constructor trips the `usize_offset` assertion
(panics) instead of returning. -/
theorem C2_length_conservation :
    (∀ (line otl off : Nat) (spans : List PhantomText),
      wfSpans otl spans = true →
      ((PhantomTextLine.new line otl off spans).final_text_len : Int)
        = (otl : Int) + ((spans.map fun p => (p.text.length : Int)).sum)
          - ((spans.map fun p => (p.foldedLen : Int)).sum)) ∧
    (∀ (otl : Nat) (spans : List PhantomText),
      (otl : Int) + ((spans.map fun p => (p.text.length : Int)).sum)
        - ((spans.map fun p => (p.foldedLen : Int)).sum) < 0 →
      newPanics otl spans = true) := by
  constructor
  · intro line otl off spans h
    have h2 := (new_invariant line otl off spans h).2
    rw [h2, stepSum_sortSpans, stepSum_split]
    ring
  · intro otl spans h
    unfold newPanics
    apply buildPanics_of_neg
    rw [stepSum_sortSpans, stepSum_split]
    omega

/-- C2 witness: both conjuncts at concrete inputs — the inlay-hint line
(`16 + 4 - 0 = 20`) and a 5-character fold on a 3-character line
(`3 + 0 - 5 < 0` panics). -/
theorem C2_witness :
    (wfSpans 16 letSpans = true ∧
      ((PhantomTextLine.new 6 16 0 letSpans).final_text_len : Int)
        = (16 : Int) + ((letSpans.map fun p => (p.text.length : Int)).sum)
          - ((letSpans.map fun p => (p.foldedLen : Int)).sum)) ∧
    ((3 : Int) + ((overfoldSpans.map fun p => (p.text.length : Int)).sum)
        - ((overfoldSpans.map fun p => (p.foldedLen : Int)).sum) < 0 ∧
      newPanics 3 overfoldSpans = true) :=
  ⟨⟨by decide, C2_length_conservation.1 6 16 0 letSpans (by decide)⟩,
   ⟨by decide, C2_length_conservation.2 3 overfoldSpans (by decide)⟩⟩

/-- C3 counterexample: the claim's precondition constrains only the
fold-consumed merge ranges, but a non-fold span whose `col` disagrees with
its `merge_col` (fold ranges: none, so the precondition holds vacuously)
yields a segment list whose final extents cover `[0, 4)` while
`final_text_len = 5`: the coverage invariant fails. -/
theorem C3_counterexample :
    foldRangesOk junk2Spans 4 = true ∧
    coversFrom 0 junk2Line.texts junk2Line.final_text_len = false := by
  decide

/-- C3 (amended): for spans that are consistent (`col = merge_col`) and
whose consumed merge ranges — including the insertion points of non-fold
spans — are compatible with the sort order, pairwise disjoint, and
contained in `[0, origin_text_len]` (predicate `wfSpans`), the segment list
of every line built by `PhantomTextLine::new` is contiguous,
non-overlapping, and covers exactly `[0, final_text_len)` in final space;
the invariant is preserved by `PhantomTextMultiLine::new` and any sequence
of `merge` calls, with the cumulative `final_text_len`. -/
theorem C3_segment_coverage (first : LineSpec) (rest : List LineSpec)
    (h1 : first.wf = true) (h2 : ∀ s ∈ rest, s.wf = true) :
    coversFrom 0 (buildMultiLine first rest).text
      (buildMultiLine first rest).final_text_len = true ∧
    (buildMultiLine first rest).final_text_len
      = first.toLine.final_text_len
        + ((rest.map fun s => s.toLine.final_text_len).sum) := by
  have hline := (new_invariant first.line first.origin_text_len
    first.offset_of_line first.spans h1).1
  have hml : coversFrom 0 (PhantomTextMultiLine.new first.toLine).text
      (PhantomTextMultiLine.new first.toLine).final_text_len = true := by
    rw [multiline_new_text, multiline_new_final]
    exact hline
  have h0 := buildMultiLine_covers_aux rest
    (PhantomTextMultiLine.new first.toLine) hml h2
  obtain ⟨hc, hs⟩ := h0
  refine ⟨hc, ?_⟩
  unfold buildMultiLine
  rw [hs, multiline_new_final]

/-- C3 witness: the three-line fold-collapse scenario of the source tests
satisfies the well-formedness hypotheses, and the merged segment list
covers exactly `[0, 30)`. -/
theorem C3_witness :
    LineSpec.wf spec2 = true ∧ (∀ s ∈ [spec4, spec6], LineSpec.wf s = true) ∧
    (coversFrom 0 (buildMultiLine spec2 [spec4, spec6]).text
        (buildMultiLine spec2 [spec4, spec6]).final_text_len = true ∧
      (buildMultiLine spec2 [spec4, spec6]).final_text_len
        = spec2.toLine.final_text_len
          + (([spec4, spec6].map fun s => s.toLine.final_text_len).sum)) :=
  ⟨by decide, by decide,
    C3_segment_coverage spec2 [spec4, spec6] (by decide) (by decide)⟩

/-- C9 (confirmed): `PhantomTextLine::new` never emits the `Text::Empty`
variant, `new`/`merge` only copy (re-based) segments, and consequently the
lookups backing `cursor_position_of_final_col` and `final_col_of_col`
can never produce `Text::Empty`: their `panic!()` arms are unreachable for
constructor-built multi-lines. -/
theorem C9_empty_unreachable :
    (∀ (line otl off : Nat) (spans : List PhantomText),
      Text.Empty ∉ (PhantomTextLine.new line otl off spans).texts) ∧
    (∀ (ml : PhantomTextMultiLine) (tl : PhantomTextLine),
      Text.Empty ∉ ml.text → Text.Empty ∉ tl.texts →
      Text.Empty ∉ (ml.merge tl).text) ∧
    (∀ (ml : PhantomTextMultiLine) (c : Nat), Text.Empty ∉ ml.text →
      ml.text_of_final_offset c ≠ some Text.Empty) ∧
    (∀ (ml : PhantomTextMultiLine) (L c : Nat), Text.Empty ∉ ml.text →
      ml.text_of_origin_line_col L c ≠ some Text.Empty) := by
  refine ⟨new_no_empty, merge_no_empty, ?_, ?_⟩
  · intro ml c h
    exact find?_ne_some_empty _ _ h
  · intro ml L c h
    exact find?_ne_some_empty _ _ h

/-- C9 witness: the merge step and both lookups at the concrete merged
scenario. -/
theorem C9_witness :
    Text.Empty ∉ ((PhantomTextMultiLine.new line2).merge line_folded_4).text ∧
    mergedML.text_of_final_offset 50 ≠ some Text.Empty ∧
    mergedML.text_of_origin_line_col 1 3 ≠ some Text.Empty :=
  ⟨C9_empty_unreachable.2.1 (PhantomTextMultiLine.new line2) line_folded_4
      (by decide) (by decide),
   C9_empty_unreachable.2.2.1 mergedML 50 (by decide),
   C9_empty_unreachable.2.2.2 mergedML 1 3 (by decide)⟩

/-- C10 (confirmed): on a multi-line satisfying the segment coverage
invariant, every final column at or beyond `final_text_len` makes
`text_of_final_offset` return `None`, and therefore
`origin_col_of_final_offset` and `phantom_text_of_final_col` return `None`
as well — no clamping, no panic. -/
theorem C10_out_of_range (ml : PhantomTextMultiLine) (c : Nat)
    (hcov : coversFrom 0 ml.text ml.final_text_len = true)
    (hge : ml.final_text_len ≤ c) :
    ml.text_of_final_offset c = none ∧
    ml.origin_col_of_final_offset c = none ∧
    ml.phantom_text_of_final_col c = none := by
  have hnone : ml.text_of_final_offset c = none := by
    unfold PhantomTextMultiLine.text_of_final_offset
    rw [List.find?_eq_none]
    intro t ht hmatch
    have hle := coversFrom_stop_le hcov t ht
    have hlt := finalMatch_lt_stop hmatch
    omega
  refine ⟨hnone, ?_, ?_⟩
  · unfold PhantomTextMultiLine.origin_col_of_final_offset
    rw [hnone]
  · unfold PhantomTextMultiLine.phantom_text_of_final_col
    rw [hnone]

/-- C10 witness: the merged scenario (final length 30) queried at 35. -/
theorem C10_witness :
    coversFrom 0 mergedML.text mergedML.final_text_len = true ∧
    mergedML.final_text_len ≤ 35 ∧
    (mergedML.text_of_final_offset 35 = none ∧
      mergedML.origin_col_of_final_offset 35 = none ∧
      mergedML.phantom_text_of_final_col 35 = none) :=
  ⟨by decide, by decide, C10_out_of_range mergedML 35 (by decide) (by decide)⟩

end Floem

namespace Floem

/-- C1 counterexample: the constructors accept a span whose `col` disagrees
with its `merge_col`; on the resulting multi-line,
`origin_col_of_final_offset 4` answers `(0, 1)` from an `OriginText`
segment, but `final_col_of_col 0 1 b = 1 ≠ 4` for either flag — the origin
scan finds an earlier, overlapping `OriginText` segment first. -/
theorem C1_counterexample :
    junkML.origin_col_of_final_offset 4 = some (0, 1) ∧
    junkML.final_col_of_col 0 1 false = 1 ∧
    junkML.final_col_of_col 0 1 true = 1 ∧
    (1 : Nat) ≠ 4 := by
  decide

/-- C1 (amended): on any multi-line whose `OriginText` segments carry
equal-length origin and final intervals and whose segment list is
origin-lookup sound (no earlier segment origin-matches a position inside a
later `OriginText` segment — both hold for multi-lines built from
consistent spans), the round trip holds: if
`origin_col_of_final_offset f = some (line, col)` then
`final_col_of_col line col b = f` for either flag `b`. -/
theorem C1_round_trip (ml : PhantomTextMultiLine) (f L c : Nat) (b : Bool)
    (hlen : originTextLensOk ml.text = true)
    (hsound : originSound ml.text = true)
    (h : ml.origin_col_of_final_offset f = some (L, c)) :
    ml.final_col_of_col L c b = f := by
  unfold PhantomTextMultiLine.origin_col_of_final_offset at h
  cases hfo : ml.text_of_final_offset f with
  | none => rw [hfo] at h; simp at h
  | some t =>
      rw [hfo] at h
      cases t with
      | Phantom p => simp at h
      | Empty => simp at h
      | OriginText oline ocol omc ofc =>
          simp only [Option.some.injEq, Prod.mk.injEq] at h
          obtain ⟨hL, hc⟩ := h
          obtain ⟨pre, post, heq, hprefalse, hmatch⟩ :=
            find?_decomp _ _ hfo
          have hf1 : ofc.start ≤ f ∧ f < ofc.stop := by
            simpa [finalMatch, Interval.contains] using hmatch
          have hmem : Text.OriginText oline ocol omc ofc ∈ ml.text := by
            rw [heq]
            simp
          have hlen2 : ocol.stop - ocol.start = ofc.stop - ofc.start := by
            have h3 := (List.all_eq_true.mp hlen) _ hmem
            simpa using h3
          have hc1 : ocol.start ≤ c := by omega
          have hc2 : c < ocol.stop := by omega
          have hpre2 : ∀ s ∈ pre, originMatch oline c s = false := by
            have h4 := originSoundAux_spec pre [] ml.text post oline ocol
              omc ofc c hsound heq hc1 hc2
            intro s hs
            exact h4 s (by simpa using hs)
          have hself :
              originMatch oline c (Text.OriginText oline ocol omc ofc)
                = true := by
            simp only [originMatch, Interval.contains, Bool.and_eq_true,
              decide_eq_true_eq]
            exact ⟨trivial, hc1, hc2⟩
          have hfind : ml.text_of_origin_line_col oline c
              = some (Text.OriginText oline ocol omc ofc) := by
            unfold PhantomTextMultiLine.text_of_origin_line_col
            rw [heq]
            exact find?_append_first pre _ post hpre2 hself
          subst hL
          unfold PhantomTextMultiLine.final_col_of_col
          have hne : ¬ (ml.text = []) := by
            rw [heq]
            simp
          rw [if_neg hne, hfind]
          dsimp only
          omega

/-- C1 witness: the merged three-line fold scenario satisfies both
invariants, and the round trip holds at final column 19. -/
theorem C1_witness :
    (originTextLensOk mergedML.text = true ∧
      originSound mergedML.text = true ∧
      mergedML.origin_col_of_final_offset 19 = some (3, 7)) ∧
    mergedML.final_col_of_col 3 7 false = 19 :=
  ⟨⟨by decide, by decide, by decide⟩,
    C1_round_trip mergedML 19 3 7 false (by decide) (by decide) (by decide)⟩

/-- C5 counterexample: in the merged fold scenario the fold phantom at
origin `(1, 12)` has `next_final_col() = 17`, yet
`final_col_of_col(1, 12, false)` returns `11` (= `final_col - 1`, the
column just before the phantom), matching the source's own test and
refuting the claimed `next_final_col()` tie-break. -/
theorem C5_counterexample :
    mergedML.final_col_of_col 1 12 false = 11 ∧
    mergedML.text.get? 1 = some (Text.Phantom fold2Built) ∧
    fold2Built.line = 1 ∧ fold2Built.col = 12 ∧
    fold2Built.next_final_col = 17 ∧
    (11 : Nat) ≠ 17 := by
  decide

/-- C5 (amended): when the origin position `(line, col)` sits at the exact
start of a fold span `p` (`LineFoldedRang` with positive folded length)
that is the first segment origin-matching it, `final_col_of_col` returns
`p.next_final_col()` only when `p.col == 0`; for `p.col ≠ 0` it returns
`p.final_col - 1`, the final column just before the phantom's inserted
text. -/
theorem C5_fold_tie_break (ml : PhantomTextMultiLine) (L c : Nat) (b : Bool)
    (p : PhantomText) (pre post : List Text) (nl : Option Nat) (len : Nat)
    (heq : ml.text = pre ++ Text.Phantom p :: post)
    (hkind : p.kind = .LineFoldedRang nl len)
    (hpos : 0 < len)
    (hline : p.line = L) (hcol : p.col = c)
    (hpre : ∀ s ∈ pre, originMatch L c s = false) :
    ml.final_col_of_col L c b
      = if c = 0 then p.next_final_col else p.final_col - 1 := by
  have hfl : p.foldedLen = len := by
    simp [PhantomText.foldedLen, hkind]
  have hself : originMatch L c (Text.Phantom p) = true := by
    simp only [originMatch, Bool.or_eq_true, Bool.and_eq_true,
      decide_eq_true_eq]
    left
    refine ⟨⟨hline, by omega⟩, ?_⟩
    unfold PhantomText.next_origin_col
    omega
  have hfind : ml.text_of_origin_line_col L c = some (Text.Phantom p) := by
    unfold PhantomTextMultiLine.text_of_origin_line_col
    rw [heq]
    exact find?_append_first pre _ post hpre hself
  unfold PhantomTextMultiLine.final_col_of_col
  have hne : ¬ (ml.text = []) := by
    rw [heq]
    simp
  rw [if_neg hne, hfind]
  dsimp only
  rw [hcol]

/-- The rebased zero-text fold of origin line 3 as it sits inside `c7ML`
after the merge. -/
def fold4Rebased : PhantomText :=
  { kind := .LineFoldedRang none 5, line := 3, col := 0,
    merge_col := 15, final_col := 17, text := "" }

/-- C5 witness: the fold at `(1, 12)` inside the two-line merge is the
first origin match, and the amended tie-break evaluates to `12 - 1 = 11`. -/
theorem C5_witness :
    c7ML.final_col_of_col 1 12 false = 11 := by
  have h := C5_fold_tie_break c7ML 1 12 false fold2Built
    [Text.OriginText 1 (Interval.new 0 12) (Interval.new 0 12)
      (Interval.new 0 12)]
    [Text.Phantom fold4Rebased,
      Text.OriginText 3 (Interval.new 5 14) (Interval.new 20 29)
        (Interval.new 17 26)]
    (some 3) 3 (by decide) (by decide) (by decide) (by decide) (by decide)
    (by decide)
  simpa using h

/-- C6 counterexample: merge column 9 of the inlay-hint line lies in the
`OriginText` segment with merge interval `[9, 16)` (it is real text, not
inside any phantom insertion), yet `col_at 9` returns `None`: the phantom
at insertion point 9 matches its closed merge range `[9, 9]` first. -/
theorem C6_counterexample :
    letML.col_at 9 = none ∧
    letML.text.get? 2 = some (Text.OriginText 6 (Interval.new 9 16)
      (Interval.new 9 16) (Interval.new 13 20)) ∧
    (Interval.new 9 16).contains 9 = true := by
  decide

/-- C6 (amended): `col_at` answers by the first segment (in list order)
whose merge test matches, where a phantom matches its *closed* merge range
`[merge_col, next_merge_col]`: if that first match is an `OriginText`
segment the result is `Some(final start + offset within the merge range)`,
and if it is a phantom — including the exact insertion point of a zero
merge-width phantom and both boundaries of a fold — the result is
`None`. -/
theorem C6_merge_translation :
    (∀ (ml : PhantomTextMultiLine) (mc oline : Nat)
        (ocol omc ofc : Interval) (pre post : List Text),
      ml.text = pre ++ Text.OriginText oline ocol omc ofc :: post →
      (∀ s ∈ pre, mergeMatch mc s = false) →
      omc.contains mc = true →
      ml.col_at mc = some (ofc.start + mc - omc.start)) ∧
    (∀ (ml : PhantomTextMultiLine) (mc : Nat) (p : PhantomText)
        (pre post : List Text),
      ml.text = pre ++ Text.Phantom p :: post →
      (∀ s ∈ pre, mergeMatch mc s = false) →
      p.merge_col ≤ mc → mc ≤ p.next_merge_col →
      ml.col_at mc = none) := by
  constructor
  · intro ml mc oline ocol omc ofc pre post heq hpre hc
    have hself : mergeMatch mc (Text.OriginText oline ocol omc ofc)
        = true := by
      simpa [mergeMatch] using hc
    have hfind : ml.text_of_merge_col mc
        = some (Text.OriginText oline ocol omc ofc) := by
      unfold PhantomTextMultiLine.text_of_merge_col
      rw [heq]
      exact find?_append_first pre _ post hpre hself
    unfold PhantomTextMultiLine.col_at
    rw [hfind]
  · intro ml mc p pre post heq hpre h1 h2
    have hself : mergeMatch mc (Text.Phantom p) = true := by
      simp [mergeMatch, h1, h2]
    have hfind : ml.text_of_merge_col mc = some (Text.Phantom p) := by
      unfold PhantomTextMultiLine.text_of_merge_col
      rw [heq]
      exact find?_append_first pre _ post hpre hself
    unfold PhantomTextMultiLine.col_at
    rw [hfind]

/-- C6 witness: both directions on the inlay-hint line — merge column 10
inside the trailing `OriginText` gives `13 + 10 - 9 = 14`, merge column 9
at the phantom's insertion point gives `None`. -/
theorem C6_witness :
    letML.col_at 10 = some 14 ∧ letML.col_at 9 = none := by
  constructor
  · have h := C6_merge_translation.1 letML 10 6 (Interval.new 9 16)
      (Interval.new 9 16) (Interval.new 13 20)
      [Text.OriginText 6 (Interval.new 0 9) (Interval.new 0 9)
        (Interval.new 0 9), Text.Phantom letPhantomBuilt] []
      (by decide) (by decide) (by decide)
    simpa using h
  · exact C6_merge_translation.2 letML 9 letPhantomBuilt
      [Text.OriginText 6 (Interval.new 0 9) (Interval.new 0 9)
        (Interval.new 0 9)]
      [Text.OriginText 6 (Interval.new 9 16) (Interval.new 9 16)
        (Interval.new 13 20)]
      (by decide) (by decide) (by decide) (by decide)

end Floem

namespace Floem

/-- C8 witness: the amended empty-line behaviour instantiated at the test
module's `empty_data` scenario (line 6, buffer offset 0, query column 9). -/
theorem C8_witness :
    (PhantomTextLine.new 6 0 0 []).texts = [] ∧
    (PhantomTextLine.new 6 0 0 []).final_text_len = 0 ∧
    ((PhantomTextMultiLine.new
      (PhantomTextLine.new 6 0 0 [])).cursor_position_of_final_col 9).1
        = 6 ∧
    ((PhantomTextMultiLine.new
      (PhantomTextLine.new 6 0 0 [])).cursor_position_of_final_col 9).2.1
        = 0 ∧
    (PhantomTextMultiLine.new
      (PhantomTextLine.new 6 0 0 [])).origin_col_of_final_offset 9
        = none ∧
    (PhantomTextMultiLine.new
      (PhantomTextLine.new 6 0 0 [])).phantom_text_of_final_col 9
        = none ∧
    (PhantomTextMultiLine.new (PhantomTextLine.new 6 0 0 [])).col_at 9
        = none ∧
    (PhantomTextMultiLine.new
      (PhantomTextLine.new 6 0 0 [])).final_col_of_col 6 0 false = 0 :=
  C8_empty_line 6 0 9 0 false

end Floem
